import Mathlib

set_option maxHeartbeats 1000000
set_option maxRecDepth 16384

/-!
# Verification of the go-logging module-level filtering and annotation pipeline

Shallow embedding of the `logging` Go package: the glob matcher it delegates
to (Go standard library `path.Match`), the `moduleLeveled` backend
(`GetLevel` / `SetLevel` / `IsEnabledFor` / `Log`), `Record` memoization
(`Message`, `Formatted`), the `Annotator` backend, logger-side `Annotater`
stacking (`Logger.Re`), and the global record sequence counter.

Go strings are modelled as `List Char` (Go iterates over the UTF-8 bytes; on
well-formed input byte-wise and rune-wise comparison of the characters the
code inspects agree, since all metacharacters are ASCII).  A Go
`(value, err error)` pair is modelled as an `Option`, `none` standing for a
non-nil error.
-/

namespace GoLogging

abbrev Str := List Char

/-! ### Go `path.Match`

Transcription of `path/match.go` (`scanChunk`, `getEsc`, `matchChunk`,
`Match`).  `moduleLeveled` calls `path.Match` both to classify a pattern as a
valid glob (`SetLevel`) and to match pattern rules against module names
(`GetLevel`).
-/

/-- The leading-`*` loop of Go `scanChunk`: strips leading stars, reporting
whether there was at least one. -/
def scanStars : Str → Bool × Str
  | [] => (false, [])
  | c :: rest =>
    if c = '*' then (true, (scanStars rest).2)
    else (false, c :: rest)

/-- The scan loop of Go `scanChunk`: splits the pattern into the next chunk
(up to the next top-level `*`, where `*` inside a `[...]` class does not
count) and the remaining pattern.  A `\` includes the following character in
the chunk. -/
def scanChunkBody : Bool → Str → Str × Str
  | _, [] => ([], [])
  | inrange, c :: rest =>
    if c = '\\' then
      match rest with
      | c2 :: rest2 =>
        let p := scanChunkBody inrange rest2
        (c :: c2 :: p.1, p.2)
      | [] => ([c], [])
    else if c = '[' then
      let p := scanChunkBody true rest
      (c :: p.1, p.2)
    else if c = ']' then
      let p := scanChunkBody false rest
      (c :: p.1, p.2)
    else if c = '*' then
      if inrange then
        let p := scanChunkBody inrange rest
        (c :: p.1, p.2)
      else ([], c :: rest)
    else
      let p := scanChunkBody inrange rest
      (c :: p.1, p.2)

/-- Go `scanChunk`: `(star, chunk, rest)`. -/
def scanChunk (pattern : Str) : Bool × Str × Str :=
  let s := scanStars pattern
  let p := scanChunkBody false s.2
  (s.1, p.1, p.2)

/-- Go `getEsc`: reads one (possibly escaped) character of a character
class; errors (`none`) on a malformed class. -/
def getEsc (chunk : Str) : Option (Char × Str) :=
  match chunk with
  | [] => none
  | c :: rest =>
    if c = '-' ∨ c = ']' then none
    else if c = '\\' then
      match rest with
      | [] => none
      | r :: nchunk => if nchunk = [] then none else some (r, nchunk)
    else
      if rest = [] then none else some (c, rest)

theorem getEsc_length {chunk : Str} {p : Char × Str} (h : getEsc chunk = some p) :
    p.2.length < chunk.length := by
  cases chunk with
  | nil => simp [getEsc] at h
  | cons c rest =>
    simp only [getEsc] at h
    split at h
    · exact absurd h (by simp)
    · split at h
      · cases rest with
        | nil => simp at h
        | cons r nchunk =>
          simp only at h
          split at h
          · exact absurd h (by simp)
          · cases h
            simp [List.length]
            omega
      · split at h
        · exact absurd h (by simp)
        · cases h
          simp [List.length]

/-- The character-class loop inside Go `matchChunk` (the `[` case): `r` is
the rune being matched, `matched`/`nrange` the loop state; returns the
match flag and the chunk remaining after the closing `]`, or `none` on a
malformed class.  (`getEsc` never returns an empty remainder, so the
`headI`-based peek at the next character is exactly Go's `chunk[0]`.) -/
def classLoop (r : Char) (matched : Bool) (nrange : Nat) (chunk : Str) :
    Option (Bool × Str) :=
  if chunk ≠ [] ∧ chunk.headI = ']' ∧ 0 < nrange then
    some (matched, chunk.tail)
  else
    match h2 : getEsc chunk with
    | none => none
    | some lc =>
      if lc.2.headI = '-' then
        match h4 : getEsc lc.2.tail with
        | none => none
        | some hc =>
          classLoop r (matched || (decide (lc.1 ≤ r) && decide (r ≤ hc.1)))
            (nrange + 1) hc.2
      else
        classLoop r (matched || (decide (lc.1 ≤ r) && decide (r ≤ lc.1)))
          (nrange + 1) lc.2
termination_by chunk.length
decreasing_by
  · have h1 := getEsc_length h2
    have h3 := getEsc_length h4
    have : lc.2.tail.length ≤ lc.2.length := by
      cases lc.2 <;> simp [List.length]
    omega
  · exact getEsc_length h2

theorem classLoop_length_aux {r : Char} :
    ∀ (n : Nat) (matched : Bool) (nrange : Nat) (chunk : Str) (res : Bool × Str),
      chunk.length ≤ n → classLoop r matched nrange chunk = some res →
      res.2.length < chunk.length := by
  intro n
  induction n with
  | zero =>
    intro matched nrange chunk res hlen h
    have hc : chunk = [] := by
      cases chunk
      · rfl
      · simp [List.length] at hlen
    subst hc
    rw [classLoop] at h
    simp [getEsc] at h
  | succ n ih =>
    intro matched nrange chunk res hlen h
    rw [classLoop] at h
    split at h
    · next h1 =>
      cases h
      cases chunk with
      | nil => exact absurd rfl h1.1
      | cons a l => simp [List.length]
    · split at h
      · simp at h
      · next lc heq =>
        have hlc := getEsc_length heq
        split at h
        · next hdash =>
          split at h
          · simp at h
          · next hc2 heq2 =>
            have hhc := getEsc_length heq2
            have htail : lc.2.tail.length ≤ lc.2.length := by
              cases lc.2 <;> simp [List.length]
            have := ih _ _ hc2.2 res (by omega) h
            omega
        · next hdash =>
          have := ih _ _ lc.2 res (by omega) h
          omega

theorem classLoop_length {r : Char} {matched : Bool} {nrange : Nat} {chunk : Str}
    {res : Bool × Str} (h : classLoop r matched nrange chunk = some res) :
    res.2.length < chunk.length :=
  classLoop_length_aux chunk.length matched nrange chunk res le_rfl h

/-- Result of Go `matchChunk`: `(rest, true, nil)` on success, `(_, false,
nil)` on a plain mismatch, `ErrBadPattern` on a malformed chunk. -/
inductive ChunkRes where
  | ok (rest : Str)
  | fail
  | bad
deriving DecidableEq

/-- Go `matchChunk`: matches the beginning of `s` against `chunk` (which
contains no top-level `*`), returning the rest of `s`.  Go checks
`len(s) == 0` at the top of each iteration, before inspecting the chunk. -/
def matchChunk : Str → Str → ChunkRes
  | [], s => .ok s
  | c :: crest, s =>
    match s with
    | [] => .fail
    | sc :: srest =>
      if c = '[' then
        let nchunk1 :=
          if crest ≠ [] ∧ crest.headI = '^' then (true, crest.tail)
          else (false, crest)
        match hcl : classLoop sc false 0 nchunk1.2 with
        | none => .bad
        | some ms =>
          if ms.1 = nchunk1.1 then .fail
          else matchChunk ms.2 srest
      else if c = '?' then
        if sc = '/' then .fail else matchChunk crest srest
      else if c = '\\' then
        match crest with
        | [] => .bad
        | ec :: crest2 => if ec = sc then matchChunk crest2 srest else .fail
      else
        if c = sc then matchChunk crest srest else .fail
termination_by chunk _ => chunk.length
decreasing_by
  · have h1 := classLoop_length hcl
    have h2 : nchunk1.2.length ≤ crest.length := by
      simp only [nchunk1]
      split
      · cases crest with
        | nil => simp
        | cons a l => simp [List.length]
      · simp
    simp [List.length]
    omega
  · simp [List.length]
  · simp [List.length]
    omega
  · simp [List.length]

theorem scanChunkBody_length : ∀ (inr : Bool) (p : Str),
    (scanChunkBody inr p).2.length ≤ p.length := by
  intro inr p
  induction inr, p using scanChunkBody.induct with
  | case1 =>
    rw [scanChunkBody.eq_def]
  | case2 inr c2 rest2 ih =>
    rw [scanChunkBody.eq_def]
    simp
    omega
  | case3 inr =>
    rw [scanChunkBody.eq_def]
    simp
  | case4 inr rest h ih =>
    rw [scanChunkBody.eq_def]
    simp
    omega
  | case5 inr rest h1 h2 ih =>
    rw [scanChunkBody.eq_def]
    simp
    omega
  | case6 rest h1 h2 h3 ih =>
    rw [scanChunkBody.eq_def]
    simp
    omega
  | case7 inr rest h h1 h2 h3 =>
    simp only [Bool.not_eq_true] at h
    subst h
    rw [scanChunkBody.eq_def]
    simp
  | case8 inr c rest h1 h2 h3 h4 ih =>
    rw [scanChunkBody.eq_def]
    simp [h1, h2, h3, h4]
    omega

theorem scanStars_spec : ∀ (p : Str),
    (scanStars p).2.length ≤ p.length ∧
      ∀ c rest, (scanStars p).2 = c :: rest → c ≠ '*' := by
  intro p
  induction p with
  | nil => simp [scanStars]
  | cons c rest ih =>
    simp only [scanStars]
    split
    · refine ⟨le_trans ih.1 (Nat.le_succ _), ?_⟩
      intro c2 r2 h
      exact ih.2 c2 r2 h
    · next hc =>
      refine ⟨Nat.le_refl _, ?_⟩
      intro c2 r2 h
      injection h with h1 h2
      subst h1
      exact hc

theorem scanChunkBody_cons_length {c : Char} {rest : Str} (hc : c ≠ '*') :
    (scanChunkBody false (c :: rest)).2.length ≤ rest.length := by
  rw [scanChunkBody.eq_def]
  simp only []
  by_cases h1 : c = '\\'
  · rw [if_pos h1]
    cases rest with
    | nil => simp
    | cons c2 rest2 =>
      have := scanChunkBody_length false rest2
      simp only [List.length]
      omega
  · rw [if_neg h1]
    by_cases h2 : c = '['
    · rw [if_pos h2]
      exact scanChunkBody_length true rest
    · rw [if_neg h2]
      by_cases h3 : c = ']'
      · rw [if_pos h3]
        exact scanChunkBody_length false rest
      · rw [if_neg h3, if_neg hc]
        exact scanChunkBody_length false rest

theorem scanChunk_rest_length {p : Str} (hp : p ≠ []) :
    (scanChunk p).2.2.length < p.length := by
  have hs := scanStars_spec p
  have hp1 : 0 < p.length := by
    cases p
    · exact absurd rfl hp
    · simp [List.length]
  simp only [scanChunk]
  cases hq : (scanStars p).2 with
  | nil => simpa [scanChunkBody] using hp1
  | cons c r =>
    have hc : c ≠ '*' := hs.2 c r hq
    have h1 : (scanChunkBody false (c :: r)).2.length ≤ r.length := scanChunkBody_cons_length hc
    have h2 : (c :: r).length ≤ p.length := hq ▸ hs.1
    simp only [List.length] at h2
    omega

/-- The `if star { for i := 0; ... } }` loop of Go `Match`: looks for a match
of `chunk` that skips `i+1` leading non-`/` bytes of the name.  `some (some t)`
models `name = t; continue Pattern`, `some none` falling out of the loop
(Go then returns `false, nil`), `none` is `ErrBadPattern`. -/
def starLoop (chunk restPattern : Str) : Str → Option (Option Str)
  | [] => some none
  | c :: rest =>
    if c = '/' then some none
    else
      match matchChunk chunk rest with
      | .ok t =>
        if restPattern = [] ∧ t ≠ [] then starLoop chunk restPattern rest
        else some (some t)
      | .fail => starLoop chunk restPattern rest
      | .bad => none

/-- Go `path.Match`: `some b` models `(b, nil)`, `none` models
`(false, ErrBadPattern)`.  The `Pattern:` loop of Go `Match` is the
recursion; its `for len(pattern) > 0` guard is the emptiness test. -/
def goMatch (pattern name : Str) : Option Bool :=
  if hp : pattern = [] then some (decide (name = []))
  else
    let sc := scanChunk pattern
    if sc.1 ∧ sc.2.1 = [] then
      some (!(name.contains '/'))
    else
      match matchChunk sc.2.1 name with
      | .bad => none
      | .ok t =>
        if t = [] ∨ sc.2.2 ≠ [] then goMatch sc.2.2 t
        else if sc.1 then
          match starLoop sc.2.1 sc.2.2 name with
          | none => none
          | some none => some false
          | some (some t2) => goMatch sc.2.2 t2
        else some false
      | .fail =>
        if sc.1 then
          match starLoop sc.2.1 sc.2.2 name with
          | none => none
          | some none => some false
          | some (some t2) => goMatch sc.2.2 t2
        else some false
termination_by pattern.length
decreasing_by
  all_goals
    exact scanChunk_rest_length hp

/-- Go `path.Match(pattern, name)`: `some b` models `(b, nil)`, `none`
models `(false, ErrBadPattern)`. -/
def pathMatch (pattern name : String) : Option Bool :=
  goMatch pattern.data name.data

/-- The way `GetLevel` consumes `path.Match`: `match, _ := path.Match(...)`,
so a bad pattern counts as a non-match. -/
def pathMatches (pattern name : String) : Bool :=
  (pathMatch pattern name).getD false

/-! ### Levels and the `moduleLeveled` backend (level.go) -/

/-- `type Level int`; the constants keep their Go ordinals. -/
abbrev Level := Nat

def CRITICAL : Level := 0
def ERROR : Level := 1
def WARNING : Level := 2
def NOTICE : Level := 3
def INFO : Level := 4
def DEBUG : Level := 5

/-- A Go `map[string]A`, modelled as an association list without duplicate
keys (insertion overwrites in place). -/
def mapLookup {α : Type} : List (String × α) → String → Option α
  | [], _ => none
  | (k, v) :: rest, key => if k = key then some v else mapLookup rest key

def mapInsert {α : Type} : List (String × α) → String → α → List (String × α)
  | [], key, v => [(key, v)]
  | (k, w) :: rest, key, v =>
    if k = key then (k, v) :: rest else (k, w) :: mapInsert rest key v

structure LevelRule where
  pattern : String
  level : Level
deriving DecidableEq

/-- State of a `moduleLeveled` backend.  The wrapped `backend` is kept
abstract (it is passed as a function where needed); `formatter` is the
`sync.Once`-guarded cached formatter, an opaque identifier, `none` while the
`once.Do` body has not yet run. -/
structure ModuleLeveled where
  levels : List (String × Level)
  exactMatch : List (String × Level)
  patternRules : List LevelRule
  formatter : Option Nat
deriving DecidableEq

/-- `AddModuleLevel` on a backend that is not already leveled: fresh empty
maps and rule list. -/
def AddModuleLevel : ModuleLeveled :=
  { levels := [], exactMatch := [], patternRules := [], formatter := none }

/-- `moduleLeveled.GetLevel`: cache, then exact matches, then a scan of the
pattern rules keeping the level of the last match (default `DEBUG`); the
result is cached under the module name.  Returns the level and the updated
receiver. -/
def GetLevel (l : ModuleLeveled) (module : String) : Level × ModuleLeveled :=
  match mapLookup l.levels module with
  | some level => (level, l)
  | none =>
    let level :=
      match mapLookup l.exactMatch module with
      | some level => level
      | none =>
        l.patternRules.foldl
          (fun level r => if pathMatches r.pattern module then r.level else level)
          DEBUG
    (level, { l with levels := mapInsert l.levels module level })

/-- Go `strings.Contains(s, needle)` for a one-character needle: the
character occurs among the string's characters. -/
def strContains (s : String) (c : Char) : Bool := s.data.contains c

/-- `moduleLeveled.SetLevel`.  The `Bool` result models the side effect
`MustGetLogger("logger").Error("Invalid module pattern %q", module)`: `true`
iff that configuration-error observation was logged.  A module containing
`*` or `?` is a glob iff `path.Match(module, "testvalue")` returns no error;
a glob is appended to the pattern rules and the cache is cleared when
non-empty, anything else becomes an exact match that also seeds the cache. -/
def SetLevel (l : ModuleLeveled) (level : Level) (module : String) :
    ModuleLeveled × Bool :=
  let hasMeta := strContains module '*' || strContains module '?'
  let isglob := hasMeta && (pathMatch module "testvalue").isSome
  let errLogged := hasMeta && (pathMatch module "testvalue").isNone
  if isglob then
    ({ l with
        patternRules := l.patternRules ++ [{ pattern := module, level := level }],
        levels := if 0 < l.levels.length then [] else l.levels },
      errLogged)
  else
    ({ l with
        exactMatch := mapInsert l.exactMatch module level,
        levels := mapInsert l.levels module level },
      errLogged)

/-- `moduleLeveled.IsEnabledFor`: `level <= l.GetLevel(module)`. -/
def IsEnabledFor (l : ModuleLeveled) (level : Level) (module : String) :
    Bool × ModuleLeveled :=
  let g := GetLevel l module
  (decide (level ≤ g.1), g.2)

/-! ### Records (log.go) -/

/-- A Go `interface{}` value as far as this package inspects it: it either
implements the `Redactor` interface (in which case `Redacted()` yields the
wrapped value) or it does not. -/
inductive GoValue where
  | str : String → GoValue
  | num : Int → GoValue
  | redactor : GoValue → GoValue
deriving DecidableEq

/-- `Record.Message`'s redaction step: `arg.(Redactor)` succeeds exactly on
`redactor` values, and the argument is replaced by `Redacted()`. -/
def redacted : GoValue → GoValue
  | .redactor v => v
  | .str s => .str s
  | .num n => .num n

/-- `Redact` returns a string of `*` having the same (byte) length as `s`. -/
def Redact (s : String) : String :=
  String.mk (List.replicate s.utf8ByteSize '*')

structure Annotation where
  Key : String
  Value : GoValue
deriving DecidableEq

/-- A log `Record`.  `message` is the lazily rendered message (`nil` pointer
modelled as `none`), `formatter` the attached formatter (opaque identifier),
`formatted` the cached rendered line (Go zero value `""` while unset). -/
structure Record where
  Id : Nat
  Time : Nat
  Module : String
  Level : Level
  Annotations : List Annotation
  message : Option String
  args : List GoValue
  fmt : String
  formatter : Option Nat
  formatted : String
deriving DecidableEq

/-- `Record.Formatted`: renders through the attached formatter only when the
cached `formatted` string is empty.  `Format` abstracts
`r.formatter.Format(calldepth+1, r, &buf)` (what the formatter writes for a
given record); the returned `Bool` reports whether the formatter was
invoked on this call. -/
def Record.Formatted (Format : Option Nat → Nat → Record → String)
    (calldepth : Nat) (r : Record) : String × Record × Bool :=
  if r.formatted = "" then
    let s := Format r.formatter (calldepth + 1) r
    (s, { r with formatted := s }, true)
  else
    (r.formatted, r, false)

/-- `Record.Message`: on the first call (nil `message`), replaces every
`Redactor` argument by its redacted form, renders via `fmt.Sprintf`
(abstracted as the function argument `sprintf`) and stores the result;
afterwards returns the stored string. -/
def Record.Message (sprintf : String → List GoValue → String) (r : Record) :
    String × Record :=
  match r.message with
  | some m => (m, r)
  | none =>
    let args2 := r.args.map redacted
    let msg := sprintf r.fmt args2
    (msg, { r with message := some msg, args := args2 })

/-! ### The level filter as a backend (level.go: `Log`,
`getFormatterAndCacheCurrent`) -/

/-- `getFormatterAndCacheCurrent`: a `sync.Once`-guarded lazy
initialization; `current` abstracts the process-wide `getFormatter()` at the
time of the call.  Returns the formatter to use and the updated receiver. -/
def getFormatterAndCacheCurrent (l : ModuleLeveled) (current : Nat) :
    Nat × ModuleLeveled :=
  match l.formatter with
  | some f => (f, l)
  | none => (current, { l with formatter := some current })

/-- `moduleLeveled.Log`.  `backend` abstracts the wrapped backend's `Log`
(returning `some err` for a non-nil error).  Result: the returned error, the
record as left by the call, the updated receiver, and the list of calls made
on the wrapped backend (level, calldepth, record as passed). -/
def ModuleLeveled.Log (l : ModuleLeveled) (current : Nat)
    (backend : Level → Nat → Record → Option String)
    (level : Level) (calldepth : Nat) (rec : Record) :
    Option String × Record × ModuleLeveled × List (Level × Nat × Record) :=
  let e := IsEnabledFor l level rec.Module
  if e.1 then
    let f := getFormatterAndCacheCurrent e.2 current
    let rec2 := { rec with formatter := some f.1 }
    (backend level (calldepth + 1) rec2, rec2, f.2, [(level, calldepth + 1, rec2)])
  else
    (none, rec, e.2, [])

/-! ### The `Annotator` backend (annotator.go) -/

/-- An `Annotator` backend.  `Extras` is the `map[string]Annotation` of
static annotations; like every Go map it is modelled as an association list
(one entry per key, iteration order unspecified — the model iterates in list
order).  The wrapped backend is abstracted as a function argument of
`Annotator.Log`. -/
structure Annotator where
  Extras : List (String × Annotation)
deriving DecidableEq

def NewAnnotator : Annotator := { Extras := [] }

/-- `Annotator.Add`: `a.Extras[key] = Annotation{Key: key, Value: val}` —
map write, overwriting any earlier value for the same key. -/
def Annotator.Add (a : Annotator) (key : String) (val : GoValue) : Annotator :=
  { a with Extras := mapInsert a.Extras key { Key := key, Value := val } }

/-- `Annotator.Log`: appends every static annotation to the record's
annotation sequence, then forwards to the wrapped backend with an
incremented depth.  Returns the error result, the mutated record, and the
calls made on the wrapped backend. -/
def Annotator.Log (a : Annotator)
    (backend : Level → Nat → Record → Option String)
    (lvl : Level) (depth : Nat) (rec : Record) :
    Option String × Record × List (Level × Nat × Record) :=
  let rec2 := { rec with Annotations := rec.Annotations ++ a.Extras.map Prod.snd }
  (backend lvl (depth + 1) rec2, rec2, [(lvl, depth + 1, rec2)])

/-! ### Logger-side `Annotater` stacking (re.go) -/

/-- An `Annotater` value: either an opaque user-supplied one (identified by
a tag, interpreted by the `interp` argument of `Annotate`) or a `stacked`
composition node. -/
inductive Annotater where
  | base : Nat → Annotater
  | stacked : Annotater → Annotater → Annotater
deriving DecidableEq

/-- Dispatch of the `Annotate` interface method: `stacked.Annotate` runs
`s.lower.Annotate(rec)` then `s.higher.Annotate(rec)`.  `interp` gives the
behaviour of the user-supplied base annotaters as record transformers. -/
def Annotate (interp : Nat → Record → Record) : Annotater → Record → Record
  | .base i, r => interp i r
  | .stacked lower higher, r => Annotate interp higher (Annotate interp lower r)

/-- A `Logger` (log.go).  The backend reference is opaque. -/
structure Logger where
  Module : String
  flags : Int
  OutputLevel : Level
  backend : Option Nat
  annotater : Option Annotater
deriving DecidableEq

/-- `Logger.Re` (re.go): stacks the new annotater on top of an existing one
and returns a copy of the logger carrying the composition; the receiver is
left untouched. -/
def Logger.Re (l : Logger) (a : Annotater) : Logger :=
  let a2 :=
    match l.annotater with
    | some prev => Annotater.stacked prev a
    | none => a
  { l with annotater := some a2 }

/-! ### The global sequence counter (log.go)

`Record.Id` is `atomic.AddUint64(&sequenceNo, 1)`.  Each record creation
performs one atomic fetch-add, so any concurrent execution linearizes to a
sequence of increments of the shared `uint64` counter; `seqAfter s0 k` is
the counter value after `k` increments from `s0`, and the record created by
the `k`-th increment (counting from 0, starting from the `Reset` state
`sequenceNo = 0`) is stamped `recordId k`.  `uint64` arithmetic wraps at
`2^64`. -/

def UINT64MOD : Nat := 2 ^ 64

def seqAfter (s0 : Nat) : Nat → Nat
  | 0 => s0
  | k + 1 => (seqAfter s0 k + 1) % UINT64MOD

def recordId (k : Nat) : Nat := seqAfter 0 (k + 1)

theorem seqAfter_zero (k : Nat) : seqAfter 0 k = k % UINT64MOD := by
  induction k with
  | zero => simp [seqAfter]
  | succ k ih =>
    have h1 : 1 % UINT64MOD = 1 := Nat.mod_eq_of_lt (by norm_num [UINT64MOD])
    rw [seqAfter, ih, Nat.add_mod k 1, h1]

/-! ### Map lemmas -/

theorem mapLookup_insert_self {α : Type} (m : List (String × α)) (k : String) (v : α) :
    mapLookup (mapInsert m k v) k = some v := by
  induction m with
  | nil => simp [mapInsert, mapLookup]
  | cons p rest ih =>
    obtain ⟨k2, w⟩ := p
    by_cases h : k2 = k
    · subst h
      simp [mapInsert, mapLookup]
    · simp [mapInsert, mapLookup, h, ih]

theorem mapLookup_insert_ne {α : Type} (m : List (String × α)) (k k2 : String) (v : α)
    (h : k2 ≠ k) : mapLookup (mapInsert m k v) k2 = mapLookup m k2 := by
  induction m with
  | nil =>
    simp [mapInsert, mapLookup]
    intro hh
    exact absurd hh.symm h
  | cons p rest ih =>
    obtain ⟨k3, w⟩ := p
    by_cases h3 : k3 = k
    · subst h3
      have hne : ¬(k3 = k2) := fun hh => h hh.symm
      simp [mapInsert, mapLookup, hne]
    · simp [mapInsert, mapLookup, h3, ih]

/-! ### C1: resolution order of `GetLevel` -/

/-- The last pattern rule, in registration order, whose glob matches the
module (the spec-side description of the pattern scan). -/
def lastMatchingRule (module : String) : List LevelRule → Option LevelRule
  | [] => none
  | r :: rs =>
    match lastMatchingRule module rs with
    | some r2 => some r2
    | none => if pathMatches r.pattern module then some r else none

theorem foldl_eq_lastMatchingRule (module : String) :
    ∀ (rules : List LevelRule) (d : Level),
      rules.foldl (fun level r => if pathMatches r.pattern module then r.level else level) d
        = (match lastMatchingRule module rules with
           | some r => r.level
           | none => d) := by
  intro rules
  induction rules with
  | nil => intro d; simp [lastMatchingRule]
  | cons r rs ih =>
    intro d
    rw [List.foldl_cons, ih, lastMatchingRule]
    cases h : lastMatchingRule module rs with
    | some r2 => simp
    | none =>
      by_cases hm : pathMatches r.pattern module
      · simp [hm]
      · simp [hm]


/-! ### Fuel-indexed executable twins of the matcher

The recursions of `classLoop`, `matchChunk` and `goMatch` are well-founded,
which blocks kernel reduction; the `…F` functions below are the same
algorithms with a structural fuel parameter (every call site passes one more
than the length of the list the callee recurses on, which the `…_eq`
theorems prove sufficient), so that concrete matches can be settled by
`decide`. -/

def classLoopF (r : Char) : Nat → Bool → Nat → Str → Option (Bool × Str)
  | 0, _, _, _ => none
  | fuel + 1, matched, nrange, chunk =>
    if chunk ≠ [] ∧ chunk.headI = ']' ∧ 0 < nrange then
      some (matched, chunk.tail)
    else
      match getEsc chunk with
      | none => none
      | some lc =>
        if lc.2.headI = '-' then
          match getEsc lc.2.tail with
          | none => none
          | some hc =>
            classLoopF r fuel (matched || (decide (lc.1 ≤ r) && decide (r ≤ hc.1)))
              (nrange + 1) hc.2
        else
          classLoopF r fuel (matched || (decide (lc.1 ≤ r) && decide (r ≤ lc.1)))
            (nrange + 1) lc.2

theorem classLoopF_eq (r : Char) :
    ∀ (fuel : Nat) (matched : Bool) (nrange : Nat) (chunk : Str),
      chunk.length < fuel →
      classLoopF r fuel matched nrange chunk = classLoop r matched nrange chunk := by
  intro fuel
  induction fuel with
  | zero =>
    intro matched nrange chunk h
    omega
  | succ fuel ih =>
    intro matched nrange chunk h
    rw [classLoopF, classLoop]
    by_cases hC : chunk ≠ [] ∧ chunk.headI = ']' ∧ 0 < nrange
    · rw [if_pos hC, if_pos hC]
    · rw [if_neg hC, if_neg hC]
      cases h2 : getEsc chunk with
      | none => rfl
      | some lc =>
        simp only []
        have hl := getEsc_length h2
        have htail : lc.2.tail.length ≤ lc.2.length := by
          cases lc.2 <;> simp [List.length]
        by_cases hd : lc.2.headI = '-'
        · rw [if_pos hd, if_pos hd]
          cases h4 : getEsc lc.2.tail with
          | none => rfl
          | some hc =>
            have h5 := getEsc_length h4
            exact ih _ _ hc.2 (by omega)
        · rw [if_neg hd, if_neg hd]
          exact ih _ _ lc.2 (by omega)

def matchChunkF : Nat → Str → Str → ChunkRes
  | 0, _, _ => .bad
  | fuel + 1, chunk, s =>
    match chunk with
    | [] => .ok s
    | c :: crest =>
      match s with
      | [] => .fail
      | sc :: srest =>
        if c = '[' then
          let nchunk1 :=
            if crest ≠ [] ∧ crest.headI = '^' then (true, crest.tail)
            else (false, crest)
          match classLoopF sc (nchunk1.2.length + 1) false 0 nchunk1.2 with
          | none => .bad
          | some ms =>
            if ms.1 = nchunk1.1 then .fail
            else matchChunkF fuel ms.2 srest
        else if c = '?' then
          if sc = '/' then .fail else matchChunkF fuel crest srest
        else if c = '\\' then
          match crest with
          | [] => .bad
          | ec :: crest2 => if ec = sc then matchChunkF fuel crest2 srest else .fail
        else
          if c = sc then matchChunkF fuel crest srest else .fail

theorem matchChunkF_eq :
    ∀ (fuel : Nat) (chunk s : Str),
      chunk.length < fuel →
      matchChunkF fuel chunk s = matchChunk chunk s := by
  intro fuel
  induction fuel with
  | zero =>
    intro chunk s h
    omega
  | succ fuel ih =>
    intro chunk s h
    rw [matchChunkF.eq_def, matchChunk.eq_def]
    simp only []
    cases chunk with
    | nil => rfl
    | cons c crest =>
      simp only []
      cases s with
      | nil => rfl
      | cons sc srest =>
        simp only []
        simp only [List.length] at h
        by_cases h1 : c = '['
        · rw [if_pos h1, if_pos h1]
          rw [classLoopF_eq sc _ _ _ _ (Nat.lt_succ_self _)]
          cases hcl : classLoop sc false 0
              (if crest ≠ [] ∧ crest.headI = '^' then (true, crest.tail)
               else (false, crest)).2 with
          | none => rfl
          | some ms =>
            simp only []
            have hms := classLoop_length hcl
            have hn : (if crest ≠ [] ∧ crest.headI = '^' then (true, crest.tail)
                else (false, crest)).2.length ≤ crest.length := by
              split
              · cases crest <;> simp [List.length]
              · simp
            by_cases hm : ms.1 = (if crest ≠ [] ∧ crest.headI = '^'
                then (true, crest.tail) else (false, crest)).1
            · rw [if_pos hm, if_pos hm]
            · rw [if_neg hm, if_neg hm]
              exact ih ms.2 srest (by omega)
        · rw [if_neg h1, if_neg h1]
          by_cases h2 : c = '?'
          · rw [if_pos h2, if_pos h2]
            by_cases h3 : sc = '/'
            · rw [if_pos h3, if_pos h3]
            · rw [if_neg h3, if_neg h3]
              exact ih crest srest (by omega)
          · rw [if_neg h2, if_neg h2]
            by_cases h4 : c = '\\'
            · rw [if_pos h4, if_pos h4]
              cases crest with
              | nil => rfl
              | cons ec crest2 =>
                simp only []
                have hlen : (ec :: crest2).length = crest2.length + 1 := rfl
                by_cases h5 : ec = sc
                · rw [if_pos h5, if_pos h5]
                  exact ih crest2 srest (by omega)
                · rw [if_neg h5, if_neg h5]
            · rw [if_neg h4, if_neg h4]
              by_cases h6 : c = sc
              · rw [if_pos h6, if_pos h6]
                exact ih crest srest (by omega)
              · rw [if_neg h6, if_neg h6]

def starLoopF (chunk restPattern : Str) : Str → Option (Option Str)
  | [] => some none
  | c :: rest =>
    if c = '/' then some none
    else
      match matchChunkF (chunk.length + 1) chunk rest with
      | .ok t =>
        if restPattern = [] ∧ t ≠ [] then starLoopF chunk restPattern rest
        else some (some t)
      | .fail => starLoopF chunk restPattern rest
      | .bad => none

theorem starLoopF_eq (chunk restPattern : Str) :
    ∀ (name : Str), starLoopF chunk restPattern name = starLoop chunk restPattern name := by
  intro name
  induction name with
  | nil => rfl
  | cons c rest ih =>
    rw [starLoopF, starLoop, matchChunkF_eq _ _ _ (Nat.lt_succ_self _)]
    by_cases h1 : c = '/'
    · rw [if_pos h1, if_pos h1]
    · rw [if_neg h1, if_neg h1]
      cases matchChunk chunk rest with
      | ok t =>
        simp only []
        by_cases h2 : restPattern = [] ∧ t ≠ []
        · rw [if_pos h2, if_pos h2, ih]
        · rw [if_neg h2, if_neg h2]
      | fail => exact ih
      | bad => rfl

def goMatchF : Nat → Str → Str → Option Bool
  | 0, _, _ => none
  | fuel + 1, pattern, name =>
    if pattern = [] then some (decide (name = []))
    else
      let sc := scanChunk pattern
      if sc.1 ∧ sc.2.1 = [] then
        some (!(name.contains '/'))
      else
        match matchChunkF (sc.2.1.length + 1) sc.2.1 name with
        | .bad => none
        | .ok t =>
          if t = [] ∨ sc.2.2 ≠ [] then goMatchF fuel sc.2.2 t
          else if sc.1 then
            match starLoopF sc.2.1 sc.2.2 name with
            | none => none
            | some none => some false
            | some (some t2) => goMatchF fuel sc.2.2 t2
          else some false
        | .fail =>
          if sc.1 then
            match starLoopF sc.2.1 sc.2.2 name with
            | none => none
            | some none => some false
            | some (some t2) => goMatchF fuel sc.2.2 t2
          else some false

theorem goMatchF_eq :
    ∀ (fuel : Nat) (pattern name : Str),
      pattern.length < fuel →
      goMatchF fuel pattern name = goMatch pattern name := by
  intro fuel
  induction fuel with
  | zero =>
    intro pattern name h
    omega
  | succ fuel ih =>
    intro pattern name h
    rw [goMatchF, goMatch]
    by_cases hp : pattern = []
    · rw [if_pos hp, dif_pos hp]
    · rw [if_neg hp, dif_neg hp]
      simp only []
      have hrest := scanChunk_rest_length hp
      by_cases hstar : (scanChunk pattern).1 ∧ (scanChunk pattern).2.1 = []
      · rw [if_pos hstar, if_pos hstar]
      · rw [if_neg hstar, if_neg hstar,
          matchChunkF_eq _ _ _ (Nat.lt_succ_self _), starLoopF_eq]
        cases matchChunk (scanChunk pattern).2.1 name with
        | bad => rfl
        | ok t =>
          simp only []
          by_cases h2 : t = [] ∨ (scanChunk pattern).2.2 ≠ []
          · rw [if_pos h2, if_pos h2]
            exact ih _ t (by omega)
          · rw [if_neg h2, if_neg h2]
            by_cases h3 : (scanChunk pattern).1 = true
            · rw [if_pos h3, if_pos h3]
              cases starLoop (scanChunk pattern).2.1 (scanChunk pattern).2.2 name with
              | none => rfl
              | some o =>
                cases o with
                | none => rfl
                | some t2 =>
                  simp only []
                  exact ih _ t2 (by omega)
            · rw [if_neg h3, if_neg h3]
        | fail =>
          simp only []
          by_cases h3 : (scanChunk pattern).1 = true
          · rw [if_pos h3, if_pos h3]
            cases starLoop (scanChunk pattern).2.1 (scanChunk pattern).2.2 name with
            | none => rfl
            | some o =>
              cases o with
              | none => rfl
              | some t2 =>
                simp only []
                exact ih _ t2 (by omega)
          · rw [if_neg h3, if_neg h3]

/-- Evaluation form of `pathMatch`: the fuel `p.data.length + 1` always
suffices. -/
theorem pathMatch_eval (p n : String) :
    pathMatch p n = goMatchF (p.data.length + 1) p.data n.data :=
  (goMatchF_eq _ _ _ (Nat.lt_succ_self _)).symm

/-! ### C1: resolution order of `GetLevel` -/

/-- C1: `GetLevel` resolves a module name through, in order: the resolution
cache, the exact-match map, then the level of the last registered pattern
rule whose glob matches, defaulting to `DEBUG`.  Consequently an
exact-match registration overrides matching pattern rules regardless of
registration order (`"foo.*"`→WARNING and `"foo.bar"`→DEBUG in either
order resolve `"foo.bar"` to DEBUG), and of two matching patterns the
later registration wins (`"a.*"`→ERROR then `"a.b*"`→DEBUG resolves
`"a.b1"` to DEBUG). -/
theorem getLevel_resolution (l : ModuleLeveled) (m : String) :
    ((GetLevel l m).1 =
      (match mapLookup l.levels m with
       | some lv => lv
       | none =>
         match mapLookup l.exactMatch m with
         | some lv => lv
         | none =>
           match lastMatchingRule m l.patternRules with
           | some r => r.level
           | none => DEBUG))
    ∧ (GetLevel ((SetLevel ((SetLevel AddModuleLevel WARNING "foo.*").1) DEBUG "foo.bar").1)
        "foo.bar").1 = DEBUG
    ∧ (GetLevel ((SetLevel ((SetLevel AddModuleLevel DEBUG "foo.bar").1) WARNING "foo.*").1)
        "foo.bar").1 = DEBUG
    ∧ (GetLevel ((SetLevel ((SetLevel AddModuleLevel ERROR "a.*").1) DEBUG "a.b*").1)
        "a.b1").1 = DEBUG := by
  refine ⟨?_, ?_, ?_, ?_⟩
  · rw [GetLevel]
    cases h1 : mapLookup l.levels m with
    | some lv => rfl
    | none =>
      simp only []
      cases h2 : mapLookup l.exactMatch m with
      | some lv => rfl
      | none =>
        simp only []
        rw [foldl_eq_lastMatchingRule]
  · simp only [SetLevel, GetLevel, AddModuleLevel, pathMatches, pathMatch_eval, strContains]
    decide
  · simp only [SetLevel, GetLevel, AddModuleLevel, pathMatches, pathMatch_eval, strContains]
    decide
  · simp only [SetLevel, GetLevel, AddModuleLevel, pathMatches, pathMatch_eval, strContains]
    decide

/-! ### C6: `IsEnabledFor` -/

/-- C6: `IsEnabledFor level module` is true exactly when the level's
ordinal is at most the ordinal `GetLevel` resolves for the module
(CRITICAL = 0 … DEBUG = 5), and is therefore monotone: a module enabled
for some level is enabled for every more severe (numerically smaller)
level. -/
theorem isEnabledFor_spec (l : ModuleLeveled) (L L' : Level) (m : String) :
    ((IsEnabledFor l L m).1 = true ↔ L ≤ (GetLevel l m).1)
    ∧ (L' ≤ L → (IsEnabledFor l L m).1 = true → (IsEnabledFor l L' m).1 = true) := by
  constructor
  · simp [IsEnabledFor]
  · intro hle h
    simp [IsEnabledFor] at h ⊢
    exact le_trans hle h

/-- Witness for C6 at concrete inputs: a fresh filter resolves to DEBUG, so
ERROR is enabled, and by monotonicity CRITICAL is enabled as well. -/
theorem isEnabledFor_spec_witness :
    (IsEnabledFor AddModuleLevel CRITICAL "my/module").1 = true :=
  (isEnabledFor_spec AddModuleLevel ERROR CRITICAL "my/module").2 (by decide) (by decide)

/-! ### C2: frame effects of `SetLevel` -/

/-- C2: registering a valid glob rule empties the whole resolution cache,
while registering an exact (metacharacter-free) module only writes that
module's entry into the exact-match map and the cache: the pattern rules
are untouched and every other module's cached entry is unchanged. -/
theorem setLevel_frame (l : ModuleLeveled) (lv : Level) (pat m other : String) :
    ((strContains pat '*' || strContains pat '?') = true →
      (pathMatch pat "testvalue").isSome = true →
      (SetLevel l lv pat).1.levels = [])
    ∧ ((strContains m '*' || strContains m '?') = false →
      (SetLevel l lv m).1.exactMatch = mapInsert l.exactMatch m lv
      ∧ (SetLevel l lv m).1.levels = mapInsert l.levels m lv
      ∧ (SetLevel l lv m).1.patternRules = l.patternRules
      ∧ (other ≠ m →
          mapLookup (SetLevel l lv m).1.levels other = mapLookup l.levels other)) := by
  constructor
  · intro h1 h2
    simp only [SetLevel, h1, h2, Bool.true_and, if_true]
    cases l.levels with
    | nil => simp
    | cons p rest => simp
  · intro h1
    have hg : ((strContains m '*' || strContains m '?')
        && (pathMatch m "testvalue").isSome) = false := by
      rw [h1]
      simp
    refine ⟨?_, ?_, ?_, ?_⟩
    · simp [SetLevel, hg]
    · simp [SetLevel, hg]
    · simp [SetLevel, hg]
    · intro hne
      simp only [SetLevel, hg, Bool.false_eq_true, if_false]
      exact mapLookup_insert_ne l.levels m other lv hne

/-- Witness for C2: `"a.*"` is a valid glob and clears the cache of a
filter that has cached `"x.y"`; registering the unrelated exact `"other"`
leaves the cached entry for `"x.y"` unchanged. -/
theorem setLevel_frame_witness :
    (SetLevel (GetLevel AddModuleLevel "x.y").2 WARNING "a.*").1.levels = []
    ∧ mapLookup (SetLevel (GetLevel AddModuleLevel "x.y").2 WARNING "other").1.levels "x.y"
        = mapLookup (GetLevel AddModuleLevel "x.y").2.levels "x.y" :=
  ⟨(setLevel_frame (GetLevel AddModuleLevel "x.y").2 WARNING "a.*" "other" "x.y").1
      (by decide) (by rw [pathMatch_eval]; decide),
    ((setLevel_frame (GetLevel AddModuleLevel "x.y").2 WARNING "a.*" "other" "x.y").2
      (by decide)).2.2.2 (by decide)⟩

/-! ### C3: malformed glob patterns -/

/-- C3: `SetLevel` on a module containing `*` or `?` that `path.Match`
rejects as malformed does not fail: no pattern rule is added, the module is
registered as a literal exact match (and cached), so it thereafter resolves
to the given level, and the configuration error is reported through the
logging channel itself (the `Bool` component). -/
theorem setLevel_malformed (l : ModuleLeveled) (lv : Level) (m : String)
    (hmeta : (strContains m '*' || strContains m '?') = true)
    (hbad : pathMatch m "testvalue" = none) :
    (SetLevel l lv m).1.exactMatch = mapInsert l.exactMatch m lv
    ∧ (SetLevel l lv m).1.levels = mapInsert l.levels m lv
    ∧ (SetLevel l lv m).1.patternRules = l.patternRules
    ∧ (SetLevel l lv m).2 = true
    ∧ (GetLevel (SetLevel l lv m).1 m).1 = lv := by
  have hglob : ((strContains m '*' || strContains m '?')
      && (pathMatch m "testvalue").isSome) = false := by
    rw [hbad]
    simp
  refine ⟨?_, ?_, ?_, ?_, ?_⟩
  · simp [SetLevel, hglob]
  · simp [SetLevel, hglob]
  · simp [SetLevel, hglob]
  · simp [SetLevel, hglob, hmeta, hbad]
  · simp only [SetLevel, hglob, Bool.false_eq_true, if_false]
    simp [GetLevel, mapLookup_insert_self]

/-- Witness for C3: `"*["` contains `*` but is rejected by the matcher
(`ErrBadPattern`); registering it at WARNING reports the configuration
error and thereafter resolves `"*["` to WARNING. -/
theorem setLevel_malformed_witness :
    (SetLevel AddModuleLevel WARNING "*[").2 = true
    ∧ (GetLevel (SetLevel AddModuleLevel WARNING "*[").1 "*[").1 = WARNING
    ∧ (SetLevel AddModuleLevel WARNING "*[").1.patternRules = [] :=
  ⟨(setLevel_malformed AddModuleLevel WARNING "*[" (by decide)
      (by rw [pathMatch_eval]; decide)).2.2.2.1,
    (setLevel_malformed AddModuleLevel WARNING "*[" (by decide)
      (by rw [pathMatch_eval]; decide)).2.2.2.2,
    (setLevel_malformed AddModuleLevel WARNING "*[" (by decide)
      (by rw [pathMatch_eval]; decide)).2.2.1⟩

/-! ### C4: the level filter's `Log` -/

/-- C4: `moduleLeveled.Log`: when the record's module is not enabled for
the level it returns nil, makes no call on the wrapped backend and leaves
the record unchanged; when enabled it attaches the filter's formatter to
the record and forwards to the wrapped backend with depth incremented by
one, returning the backend's result.  The formatter is resolved at most
once per filter instance: a second resolution returns the value cached by
the first, whatever the current global formatter then is. -/
theorem moduleLeveled_log_spec (l : ModuleLeveled) (current current' : Nat)
    (backend : Level → Nat → Record → Option String)
    (level : Level) (calldepth : Nat) (rec : Record) :
    ((IsEnabledFor l level rec.Module).1 = false →
      ModuleLeveled.Log l current backend level calldepth rec
        = (none, rec, (IsEnabledFor l level rec.Module).2, []))
    ∧ ((IsEnabledFor l level rec.Module).1 = true →
      (ModuleLeveled.Log l current backend level calldepth rec).2.1
          = { rec with formatter := some (getFormatterAndCacheCurrent (IsEnabledFor l level rec.Module).2 current).1 }
        ∧ (ModuleLeveled.Log l current backend level calldepth rec).1
          = backend level (calldepth + 1) (ModuleLeveled.Log l current backend level calldepth rec).2.1
        ∧ (ModuleLeveled.Log l current backend level calldepth rec).2.2.1
          = (getFormatterAndCacheCurrent (IsEnabledFor l level rec.Module).2 current).2
        ∧ (ModuleLeveled.Log l current backend level calldepth rec).2.2.2
          = [(level, calldepth + 1, (ModuleLeveled.Log l current backend level calldepth rec).2.1)])
    ∧ (getFormatterAndCacheCurrent (getFormatterAndCacheCurrent l current).2 current'
        = ((getFormatterAndCacheCurrent l current).1, (getFormatterAndCacheCurrent l current).2)) := by
  refine ⟨?_, ?_, ?_⟩
  · intro h
    simp [ModuleLeveled.Log, h]
  · intro h
    refine ⟨?_, ?_, ?_, ?_⟩ <;> simp [ModuleLeveled.Log, h]
  · cases hf : l.formatter with
    | none => simp [getFormatterAndCacheCurrent, hf]
    | some f => simp [getFormatterAndCacheCurrent, hf]

/-- A concrete record shared by the witnesses below. -/
def sampleRecord : Record :=
  { Id := 1, Time := 0, Module := "m", Level := INFO, Annotations := [], message := none, args := [], fmt := "t", formatter := none, formatted := "" }

/-- Witness for C4: with `"m"` capped at ERROR, an INFO log is a no-op
(nil result, no backend call, record untouched). -/
theorem moduleLeveled_log_spec_witness :
    ModuleLeveled.Log (SetLevel AddModuleLevel ERROR "m").1 7 (fun _ _ _ => none)
        INFO 2 sampleRecord
      = (none, sampleRecord,
         (IsEnabledFor (SetLevel AddModuleLevel ERROR "m").1 INFO sampleRecord.Module).2, []) :=
  (moduleLeveled_log_spec (SetLevel AddModuleLevel ERROR "m").1 7 9 (fun _ _ _ => none)
    INFO 2 sampleRecord).1 (by decide)

/-! ### C5: `Logger.Re` stacking -/

/-- C5: calling `Re B` on a logger already carrying annotater A yields a
new logger whose annotater is the composition node `stacked A B`, which
runs A first and then B — so with annotation-appending annotaters A's
annotations precede B's in the record — while the logger value passed in
still carries A and every other field is shared. -/
theorem logger_re_stacks (l : Logger) (A B : Annotater)
    (interp : Nat → Record → Record) (r : Record)
    (hA : l.annotater = some A) :
    (l.Re B).annotater = some (Annotater.stacked A B)
    ∧ Annotate interp (Annotater.stacked A B) r
        = Annotate interp B (Annotate interp A r)
    ∧ (l.Re B).Module = l.Module
    ∧ (l.Re B).flags = l.flags
    ∧ (l.Re B).OutputLevel = l.OutputLevel
    ∧ (l.Re B).backend = l.backend
    ∧ (∀ (anns : Nat → List Annotation) (i j : Nat),
        (Annotate (fun k rc => { rc with Annotations := rc.Annotations ++ anns k })
          (Annotater.stacked (.base i) (.base j)) r).Annotations
          = r.Annotations ++ anns i ++ anns j) := by
  refine ⟨?_, rfl, ?_, ?_, ?_, ?_, ?_⟩
  · simp [Logger.Re, hA]
  · simp [Logger.Re]
  · simp [Logger.Re]
  · simp [Logger.Re]
  · simp [Logger.Re]
  · intro anns i j
    simp [Annotate, List.append_assoc]

/-- A concrete logger carrying the base annotater 0, for the C5 witness. -/
def sampleLogger : Logger :=
  { Module := "m", flags := 0, OutputLevel := INFO, backend := none, annotater := some (Annotater.base 0) }

/-- Witness for C5: re-contextualizing `sampleLogger` with `base 1`
produces the stacked pair. -/
theorem logger_re_stacks_witness :
    (Logger.Re sampleLogger (Annotater.base 1)).annotater
      = some (Annotater.stacked (Annotater.base 0) (Annotater.base 1)) :=
  (logger_re_stacks sampleLogger (Annotater.base 0) (Annotater.base 1)
    (fun _ rc => rc) sampleRecord rfl).1

/-! ### C7: `Record.Message` memoization -/

/-- C7: `Record.Message` renders at most once.  A first call on a record
with a nil message renders the format over the redacted arguments and
stores the result; any later call — even after the backing arguments are
replaced — returns the string computed by the first call, and a call on an
already-rendered record returns the stored string unchanged. -/
theorem record_message_memo (sprintf : String → List GoValue → String)
    (r : Record) (args' : List GoValue) :
    (Record.Message sprintf { (Record.Message sprintf r).2 with args := args' }
        = ((Record.Message sprintf r).1, { (Record.Message sprintf r).2 with args := args' }))
    ∧ (r.message = none →
        (Record.Message sprintf r).1 = sprintf r.fmt (r.args.map redacted)
        ∧ (Record.Message sprintf r).2.message = some (Record.Message sprintf r).1)
    ∧ (∀ m0, r.message = some m0 → Record.Message sprintf r = (m0, r)) := by
  refine ⟨?_, ?_, ?_⟩
  · cases h : r.message with
    | none => simp [Record.Message, h]
    | some m => simp [Record.Message, h]
  · intro h
    simp [Record.Message, h]
  · intro m0 h
    simp [Record.Message, h]

/-- Witness for C7: a rendering function that depends on the arguments
still yields the first-computed string on the second call after the
arguments were swapped out. -/
theorem record_message_memo_witness :
    Record.Message (fun f a => f ++ String.mk (List.replicate a.length 'x'))
        { (Record.Message (fun f a => f ++ String.mk (List.replicate a.length 'x')) sampleRecord).2 with args := [GoValue.str "z"] }
      = ((Record.Message (fun f a => f ++ String.mk (List.replicate a.length 'x')) sampleRecord).1,
         { (Record.Message (fun f a => f ++ String.mk (List.replicate a.length 'x')) sampleRecord).2 with args := [GoValue.str "z"] }) :=
  (record_message_memo (fun f a => f ++ String.mk (List.replicate a.length 'x'))
    sampleRecord [GoValue.str "z"]).1

/-! ### C10: `Record.Formatted` memoization through the emptiness test -/

/-- C10: `Record.Formatted` caches by testing the cached string for
emptiness.  On a record with an empty cache: if the formatter returns a
non-empty string, the first call invokes the formatter and stores the
result, and any later call returns the stored string without invoking the
formatter; if the formatter returns the empty string, the call stores `""`
(leaving the cache empty), so every subsequent call invokes the formatter
again — the at-most-once guarantee fails in that case. -/
theorem record_formatted_memo (Format : Option Nat → Nat → Record → String)
    (d d' : Nat) (r : Record) (hr : r.formatted = "") :
    (Format r.formatter (d + 1) r ≠ "" →
      Record.Formatted Format d r
          = (Format r.formatter (d + 1) r, { r with formatted := Format r.formatter (d + 1) r }, true)
        ∧ Record.Formatted Format d' (Record.Formatted Format d r).2.1
          = ((Record.Formatted Format d r).1, (Record.Formatted Format d r).2.1, false))
    ∧ (Format r.formatter (d + 1) r = "" →
      Record.Formatted Format d r = ("", { r with formatted := "" }, true)
        ∧ (Record.Formatted Format d' (Record.Formatted Format d r).2.1).2.2 = true) := by
  constructor
  · intro h
    constructor
    · simp [Record.Formatted, hr]
    · simp [Record.Formatted, hr, h]
  · intro h
    constructor
    · simp [Record.Formatted, hr, h]
    · simp [Record.Formatted, hr, h]

/-- Witness for C10: on `sampleRecord` (empty cache), a formatter returning
`"out"` is invoked once and not on the second call, while a formatter
returning `""` is invoked on both calls. -/
theorem record_formatted_memo_witness :
    (Record.Formatted (fun _ _ _ => "out") 5
        (Record.Formatted (fun _ _ _ => "out") 3 sampleRecord).2.1).2.2 = false
    ∧ (Record.Formatted (fun _ _ _ => "") 5
        (Record.Formatted (fun _ _ _ => "") 3 sampleRecord).2.1).2.2 = true :=
  ⟨by rw [((record_formatted_memo (fun _ _ _ => "out") 3 5 sampleRecord rfl).1
      (by decide)).2],
   ((record_formatted_memo (fun _ _ _ => "") 3 5 sampleRecord rfl).2 rfl).2⟩

/-! ### C8: `Annotator.Log` and `Annotator.Add` -/

/-- C8: `Annotator.Log` appends exactly the static annotations (the entries
of the `Extras` map, whose iteration order is unspecified — the model uses
the map's own order) to the record's annotation sequence, then forwards to
the wrapped backend with depth incremented by one, returning its result;
the record's level and message are untouched.  The `Annotator` of the
source has no dynamic hook, so the dynamically-computed contribution is
always empty and its absence is tolerated.  `Add` has map semantics: it
overwrites the entry for its key and leaves other keys unchanged. -/
theorem annotator_log_spec (a : Annotator)
    (backend : Level → Nat → Record → Option String)
    (lvl : Level) (depth : Nat) (rec : Record) (k k2 : String) (v : GoValue) :
    ((Annotator.Log a backend lvl depth rec).2.1.Annotations
        = rec.Annotations ++ a.Extras.map Prod.snd)
    ∧ (Annotator.Log a backend lvl depth rec).2.2
        = [(lvl, depth + 1, (Annotator.Log a backend lvl depth rec).2.1)]
    ∧ (Annotator.Log a backend lvl depth rec).1
        = backend lvl (depth + 1) (Annotator.Log a backend lvl depth rec).2.1
    ∧ (Annotator.Log a backend lvl depth rec).2.1.Level = rec.Level
    ∧ (Annotator.Log a backend lvl depth rec).2.1.message = rec.message
    ∧ (Annotator.Log a backend lvl depth rec).2.1.fmt = rec.fmt
    ∧ (Annotator.Log a backend lvl depth rec).2.1.args = rec.args
    ∧ mapLookup (a.Add k v).Extras k = some { Key := k, Value := v }
    ∧ (k2 ≠ k → mapLookup (a.Add k v).Extras k2 = mapLookup a.Extras k2) := by
  refine ⟨rfl, rfl, rfl, rfl, rfl, rfl, rfl, ?_, ?_⟩
  · simp [Annotator.Add, mapLookup_insert_self]
  · intro h
    simp [Annotator.Add, mapLookup_insert_ne a.Extras k k2 _ h]

/-- Witness for C8: a two-entry annotator appends both annotations (in map
order) and forwards with depth 3 for an incoming depth of 2; re-adding key
`"k1"` overwrites, and leaves `"k2"` alone. -/
theorem annotator_log_spec_witness :
    ((Annotator.Log ((NewAnnotator.Add "k1" (GoValue.str "a")).Add "k2" (GoValue.num 4))
        (fun _ _ _ => none) INFO 2 sampleRecord).2.1.Annotations
      = sampleRecord.Annotations
          ++ (((NewAnnotator.Add "k1" (GoValue.str "a")).Add "k2" (GoValue.num 4)).Extras.map Prod.snd))
    ∧ mapLookup ((((NewAnnotator.Add "k1" (GoValue.str "a")).Add "k2" (GoValue.num 4)).Add
          "k1" (GoValue.str "b")).Extras) "k2"
        = mapLookup (((NewAnnotator.Add "k1" (GoValue.str "a")).Add "k2" (GoValue.num 4)).Extras) "k2" :=
  ⟨(annotator_log_spec ((NewAnnotator.Add "k1" (GoValue.str "a")).Add "k2" (GoValue.num 4))
      (fun _ _ _ => none) INFO 2 sampleRecord "k1" "k2" (GoValue.str "b")).1,
   (annotator_log_spec ((NewAnnotator.Add "k1" (GoValue.str "a")).Add "k2" (GoValue.num 4))
      (fun _ _ _ => none) INFO 2 sampleRecord "k1" "k2" (GoValue.str "b")).2.2.2.2.2.2.2.2
      (by decide)⟩

/-! ### C9: uniqueness of record ids -/

/-- The record literal built by `Logger.Log` (and `Logger.Output` /
`Logger.Outputf`), with `Id` the value returned by the atomic increment:
`k` is the creation's index in the linearization order of the fetch-adds on
the shared counter (starting from the `Reset` state `sequenceNo = 0`), so
the stamped id is `recordId k` whichever logger or thread performs it. -/
def mkLogRecord (l : Logger) (k : Nat) (time : Nat) (lvl : Level)
    (fmt : String) (args : List GoValue) : Record :=
  { Id := recordId k, Time := time, Module := l.Module, Level := lvl,
    Annotations := [], message := none, args := args, fmt := fmt,
    formatter := none, formatted := "" }

/-- C9 (amended): ids stamped on records created by the `i`-th and `j`-th
increments of the shared counter are distinct whenever at most `2^64`
records are created in total, whatever loggers perform the creations.  (As
originally claimed — for every N — the property fails: the `uint64`
counter wraps after `2^64` increments.) -/
theorem mkLogRecord_id_injective (l l' : Logger) (i j N : Nat)
    (t t' : Nat) (lv lv' : Level) (f f' : String)
    (a a' : List GoValue)
    (hij : i < j) (hjN : j < N) (hN : N ≤ UINT64MOD) :
    (mkLogRecord l i t lv f a).Id ≠ (mkLogRecord l' j t' lv' f' a').Id := by
  intro h
  simp only [mkLogRecord, recordId, seqAfter_zero] at h
  have hi : (i + 1) % UINT64MOD = i + 1 := Nat.mod_eq_of_lt (by omega)
  by_cases hj : j + 1 < UINT64MOD
  · rw [hi, Nat.mod_eq_of_lt hj] at h
    omega
  · have hje : j + 1 = UINT64MOD := by omega
    rw [hi, hje, Nat.mod_self] at h
    omega

/-- Witness for C9 (amended): the first two records created after `Reset`
get the distinct ids 1 and 2. -/
theorem mkLogRecord_id_injective_witness :
    (mkLogRecord sampleLogger 0 0 INFO "f" []).Id
      ≠ (mkLogRecord sampleLogger 1 0 INFO "f" []).Id :=
  mkLogRecord_id_injective sampleLogger sampleLogger 0 1 2 0 0 INFO INFO "f" "f" [] []
    (by decide) (by decide) (by norm_num [UINT64MOD])

/-- C9 counterexample: the claim as stated — distinct ids for every N —
fails on the code: the `uint64` counter wraps at `2^64`, so the record
created by increment 0 and the record created by increment `2^64` (the
`2^64 + 1`-th record) both receive id 1. -/
theorem recordId_wraparound :
    (mkLogRecord sampleLogger 0 0 INFO "f" []).Id
      = (mkLogRecord sampleLogger (2 ^ 64) 0 INFO "f" []).Id
    ∧ (0 : Nat) ≠ 2 ^ 64 := by
  constructor
  · simp only [mkLogRecord, recordId, seqAfter_zero, UINT64MOD]
    norm_num
  · norm_num
